import Mathlib

/-!
Verification of the Partition connector (`gpn/connector.py`).

The SQL schema, triggers and the `_Connector` lifecycle logic are shallowly
embedded as executable Lean definitions; each claim about the spec is settled
by a theorem over these definitions.
-/

namespace GPN

/-- The error taxonomy of the connector layer: constraint-guard aborts
(`RAISE(ABORT, ...)` in triggers, SQLite constraint failures), read-only
violations, and the invalid-partition error raised by `_Connector.__init__`. -/
inductive Err where
  | constraintViolation (msg : String)
  | readOnlyViolation
  | notAPartition (msg : String)
  deriving DecidableEq, Repr

/-! ## The `cell_label` relation and the `CheckUniqueLabels_*` triggers -/

/-- A row of the `cell_label` table.  All of `cell_id`, `hierarchy_id` and
`label_id` are nullable in the schema. -/
structure CellLabelRow where
  cell_label_id : Option Int
  cell_id : Option Int
  hierarchy_id : Option Int
  label_id : Option Int
  deriving DecidableEq, Repr

/-- A row of the `label` table: `label_id INTEGER DEFAULT NULL UNIQUE`,
`hierarchy_id INTEGER NOT NULL`, `label_value TEXT`. -/
structure LabelRow where
  label_id : Option Int
  hierarchy_id : Int
  label_value : Option String
  deriving DecidableEq, Repr

/-- Rows of the `cell_label` relation carrying a given `cell_id` value. -/
def rowsOfCell (rows : List CellLabelRow) (c : Option Int) : List CellLabelRow :=
  rows.filter (fun r => r.cell_id == c)

/-- The non-NULL `label_id` values of a cell's `cell_label` rows
(`GROUP_CONCAT` skips NULL inputs). -/
def labelIdsOf (rows : List CellLabelRow) (c : Option Int) : List Int :=
  (rowsOfCell rows c).filterMap (·.label_id)

/-- The label ids of a cell in ascending order, following the trigger's inner
`SELECT cell_id, label_id FROM cell_label ORDER BY cell_id, label_id`. -/
def sortedLabelIdsOf (rows : List CellLabelRow) (c : Option Int) : List Int :=
  List.insertionSort (· ≤ ·) (labelIdsOf rows c)

/-- The `label_combo` signature `GROUP_CONCAT(label_id)` computed per cell by
the `CheckUniqueLabels_*` triggers: the comma-joined decimal renderings of the
cell's non-NULL label ids in ascending order, or SQL NULL when every
`label_id` in the group is NULL. -/
def comboOf (rows : List CellLabelRow) (c : Option Int) : Option String :=
  match sortedLabelIdsOf rows c with
  | [] => none
  | l => some (String.intercalate "," (l.map toString))

/-- The distinct `cell_id` values appearing in the `cell_label` relation
(the trigger's `GROUP BY cell_id`; a NULL `cell_id` forms its own group). -/
def cellIdsOf (rows : List CellLabelRow) : List (Option Int) :=
  (rows.map (·.cell_id)).dedup

/-- The WHEN condition shared by `CheckUniqueLabels_ins/_upd/_del`: group the
relation by `cell_id`, compute each group's `label_combo`, and test whether
some combo value is produced by more than one group
(`GROUP BY label_combo HAVING COUNT(*) > 1`). -/
def checkUniqueLabels (rows : List CellLabelRow) : Bool :=
  decide (¬ ((cellIdsOf rows).map (comboOf rows)).Nodup)

/-- An insert, update or delete statement against `cell_label`.  An update
addresses its row by the `cell_label_id` primary key; a delete removes the
rows matching a predicate. -/
inductive CLStmt where
  | ins (r : CellLabelRow)
  | upd (sel : Int) (r : CellLabelRow)
  | del (p : CellLabelRow → Bool)

/-- The row transformation a `cell_label` statement performs, before any
constraint or trigger may abort it. -/
def applyCL (rows : List CellLabelRow) : CLStmt → List CellLabelRow
  | .ins r => rows ++ [r]
  | .upd sel r => rows.map (fun x => if x.cell_label_id == some sel then r else x)
  | .del p => rows.filter (fun x => !(p x))

/-- `FOREIGN KEY (cell_id) REFERENCES cell(cell_id)`; a NULL child value is
exempt. -/
def fkCellOk (cells : List Int) (r : CellLabelRow) : Bool :=
  match r.cell_id with
  | none => true
  | some c => cells.contains c

/-- `FOREIGN KEY (label_id, hierarchy_id) REFERENCES label(label_id,
hierarchy_id)`; the check is skipped when any child column is NULL. -/
def fkLabelOk (labels : List LabelRow) (r : CellLabelRow) : Bool :=
  match r.label_id, r.hierarchy_id with
  | some l, some h => labels.any (fun x => x.label_id == some l && x.hierarchy_id == h)
  | _, _ => true

/-- `UNIQUE (cell_id, hierarchy_id)`; rows with a NULL in either column are
exempt from the unique index. -/
def uniqueCellHierOk (others : List CellLabelRow) (r : CellLabelRow) : Bool :=
  match r.cell_id, r.hierarchy_id with
  | some c, some h =>
      !(others.any (fun x => x.cell_id == some c && x.hierarchy_id == some h))
  | _, _ => true

/-- The schema constraints checked for one `cell_label` statement: the two
foreign keys and `UNIQUE (cell_id, hierarchy_id)` (against the other rows, for
an update).  A delete is subject to no constraint of its own. -/
def clConstraintsOk (cells : List Int) (labels : List LabelRow)
    (rows : List CellLabelRow) : CLStmt → Bool
  | .ins r => fkCellOk cells r && fkLabelOk labels r && uniqueCellHierOk rows r
  | .upd sel r =>
      if rows.any (fun x => x.cell_label_id == some sel) then
        fkCellOk cells r && fkLabelOk labels r &&
          uniqueCellHierOk (rows.filter (fun x => !(x.cell_label_id == some sel))) r
      else true
  | .del _ => true

/-- Execute one statement against `cell_label` under the schema's constraints
(foreign keys, `UNIQUE (cell_id, hierarchy_id)`) and the AFTER triggers
`CheckUniqueLabels_ins/_upd/_del`, which abort the statement when the
post-statement relation assigns the same `label_combo` to two groups.
`cells` is the set of `cell_id`s in the `cell` table and `labels` the rows of
the `label` table (foreign-key parents). -/
def cellLabelStep (cells : List Int) (labels : List LabelRow)
    (rows : List CellLabelRow) (stmt : CLStmt) : Except Err (List CellLabelRow) :=
  if clConstraintsOk cells labels rows stmt = false then
    .error (.constraintViolation "FOREIGN KEY or UNIQUE constraint failed")
  else if checkUniqueLabels (applyCL rows stmt) = true then
    .error (.constraintViolation "CHECK constraint failed: cell_label (duplicate label set)")
  else
    .ok (applyCL rows stmt)

/-- The multiset of `(hierarchy_id, label_id)` pairs assigned to a cell by the
`cell_label` relation. -/
def pairsOf (rows : List CellLabelRow) (c : Option Int) : Multiset (Option Int × Option Int) :=
  ((rowsOfCell rows c).map (fun r => (r.hierarchy_id, r.label_id)) : List (Option Int × Option Int))

/-- `cell_label` states reachable from an empty relation through statements
the constraints and triggers let through. -/
inductive ReachableCL : List CellLabelRow → Prop where
  | nil : ReachableCL []
  | step (cells : List Int) (labels : List LabelRow) (rows : List CellLabelRow)
      (stmt : CLStmt) (rows' : List CellLabelRow) :
      ReachableCL rows → cellLabelStep cells labels rows stmt = .ok rows' →
      ReachableCL rows'

/-! ## The `hierarchy` and `label` tables, their constraints and triggers -/

/-- A row of the `hierarchy` table.  `hierarchy_id` is the `INTEGER PRIMARY
KEY` (the rowid, unique by construction); the other two columns carry their
`NOT NULL`/`UNIQUE`/`CHECK` constraints in the executor, so arbitrary states
can be talked about. -/
structure HierarchyRow where
  hierarchy_id : Int
  hierarchy_value : Option String
  hierarchy_level : Option Int
  deriving DecidableEq, Repr

/-- Comparison used by `ORDER BY hierarchy_level LIMIT 1`: ascending level,
SQL NULLs first. -/
def hierLevelLT (a b : HierarchyRow) : Bool :=
  match a.hierarchy_level, b.hierarchy_level with
  | none, none => false
  | none, some _ => true
  | some _, none => false
  | some x, some y => decide (x < y)

/-- The row selected by `SELECT ... FROM hierarchy ORDER BY hierarchy_level
LIMIT 1` — the root hierarchy (first row of minimal level). -/
def rootRow : List HierarchyRow → Option HierarchyRow
  | [] => none
  | h :: t => some (t.foldl (fun b r => if hierLevelLT r b then r else b) h)

/-- The root hierarchy's id, or none when the `hierarchy` table is empty. -/
def rootId (hs : List HierarchyRow) : Option Int :=
  (rootRow hs).map (·.hierarchy_id)

/-- The cardinality of `SELECT label_value FROM label WHERE hierarchy_id = h
UNION SELECT 'UNMAPPED' UNION SELECT newVal` (SQL UNION removes duplicates
and treats NULLs as equal). -/
def rootValueCount (ls : List LabelRow) (h : Int) (newVal : Option String) : Nat :=
  (((ls.filter (fun l => l.hierarchy_id == h)).map (·.label_value))
    ++ [some "UNMAPPED", newVal]).dedup.length

/-- The WHEN condition of `MaximalCellLabel_ins`/`MaximalCellLabel_upd`
(BEFORE INSERT/UPDATE ON `label`): the NEW row targets the root hierarchy and
the union of the existing root label values, the `'UNMAPPED'` sentinel and
the NEW value has more than two members. -/
def maximalCellLabelCond (hs : List HierarchyRow) (ls : List LabelRow) (r : LabelRow) : Bool :=
  (rootId hs == some r.hierarchy_id)
    && decide (2 < rootValueCount ls r.hierarchy_id r.label_value)

/-- The distinct label values at the (current) root hierarchy together with
the `'UNMAPPED'` sentinel, as computed by `MaximalCellHierarchy_upd`/`_del`
over a given `hierarchy`/`label` state. -/
def rootValuesAfter (hs : List HierarchyRow) (ls : List LabelRow) : List (Option String) :=
  ((match rootId hs with
    | none => []
    | some h => (ls.filter (fun l => l.hierarchy_id == h)).map (·.label_value))
    ++ [some "UNMAPPED"]).dedup

/-- The WHEN condition of `MaximalCellHierarchy_upd`/`_del` (AFTER
UPDATE/DELETE ON `hierarchy`), evaluated on the post-statement state. -/
def maximalCellHierarchyCond (hs : List HierarchyRow) (ls : List LabelRow) : Bool :=
  decide (2 < (rootValuesAfter hs ls).length)

/-- The column constraints of a candidate `hierarchy` row against the other
rows: `hierarchy_value TEXT UNIQUE NOT NULL CHECK(hierarchy_value!='cell_id'
AND hierarchy_value NOT LIKE '%.%')` and `hierarchy_level INTEGER UNIQUE NOT
NULL`. -/
def hierRowOk (others : List HierarchyRow) (r : HierarchyRow) : Bool :=
  match r.hierarchy_value, r.hierarchy_level with
  | some v, some lvl =>
      (v != "cell_id") && !(v.toList.contains '.')
        && !(others.any (fun x => x.hierarchy_value == some v))
        && !(others.any (fun x => x.hierarchy_level == some lvl))
  | _, _ => false

/-- The constraints of a candidate `label` row against the other rows: the
foreign key into `hierarchy`, `label_id UNIQUE` (NULLs exempt) and
`UNIQUE (hierarchy_id, label_value)` (NULL values exempt). -/
def labelConstraintsOk (hs : List HierarchyRow) (others : List LabelRow) (r : LabelRow) : Bool :=
  (hs.any (fun x => x.hierarchy_id == r.hierarchy_id))
    && (match r.label_id with
        | none => true
        | some i => !(others.any (fun x => x.label_id == some i)))
    && (match r.label_value with
        | none => true
        | some v => !(others.any (fun x =>
            x.hierarchy_id == r.hierarchy_id && x.label_value == some v)))

/-- `COALESCE(label_id, 0)` of a `label` row. -/
def coalesceId (l : LabelRow) : Int := l.label_id.getD 0

/-- `MAX(COALESCE(label_id, 0))` folded over the table starting from `a`. -/
def maxCoalescedId (ls : List LabelRow) (a : Int) : Int :=
  ls.foldl (fun m l => max m (coalesceId l)) a

/-- The joint state of the `hierarchy` and `label` tables. -/
structure LHState where
  hs : List HierarchyRow
  ls : List LabelRow
  deriving DecidableEq, Repr

/-- A statement against the `hierarchy` or `label` table.  Updates address
their row by `hierarchy_id` (the primary key) resp. by a non-NULL
`label_id`. -/
inductive LHStmt where
  | insHier (r : HierarchyRow)
  | updHier (target : Int) (v : Option String) (lvl : Option Int)
  | delHier (target : Int)
  | insLabel (r : LabelRow)
  | updLabel (target : Int) (r : LabelRow)
  | delLabel (p : LabelRow → Bool)

/-- The message of the `MaximalCellLabel_*`/`MaximalCellHierarchy_*`
triggers' `RAISE(ABORT, ...)`. -/
def rootMsg : String :=
  "CHECK constraint failed: label (root hierarchy cannot have multiple values)"

/-- Execute one statement against the `hierarchy`/`label` state under the
schema constraints and the triggers `MaximalCellLabel_ins/_upd` (BEFORE
INSERT/UPDATE ON `label`), `MaximalCellHierarchy_upd/_del` (AFTER
UPDATE/DELETE ON `hierarchy`) and `AutoIncrementLabelId` (AFTER INSERT ON
`label`; its inner UPDATE does not re-fire the label triggers because SQLite
runs with `recursive_triggers` off).  The foreign key from `cell_label` into
`label` lives in the `cell_label` model and is not repeated here. -/
def lhStep (st : LHState) : LHStmt → Except Err LHState
  | .insHier r =>
      if st.hs.any (fun x => x.hierarchy_id == r.hierarchy_id) then
        .error (.constraintViolation "UNIQUE constraint failed: hierarchy.hierarchy_id")
      else if hierRowOk st.hs r = false then
        .error (.constraintViolation "hierarchy constraint failed")
      else
        .ok ⟨st.hs ++ [r], st.ls⟩
  | .updHier target v lvl =>
      if st.hs.any (fun x => x.hierarchy_id == target) then
        if hierRowOk (st.hs.filter (fun x => !(x.hierarchy_id == target))) ⟨target, v, lvl⟩ = false then
          .error (.constraintViolation "hierarchy constraint failed")
        else
          let hs' := st.hs.map (fun x => if x.hierarchy_id == target then ⟨target, v, lvl⟩ else x)
          if maximalCellHierarchyCond hs' st.ls then
            .error (.constraintViolation rootMsg)
          else
            .ok ⟨hs', st.ls⟩
      else
        .ok st
  | .delHier target =>
      if st.hs.any (fun x => x.hierarchy_id == target) then
        if st.ls.any (fun l => l.hierarchy_id == target) then
          .error (.constraintViolation "FOREIGN KEY constraint failed")
        else
          let hs' := st.hs.filter (fun x => !(x.hierarchy_id == target))
          if maximalCellHierarchyCond hs' st.ls then
            .error (.constraintViolation rootMsg)
          else
            .ok ⟨hs', st.ls⟩
      else
        .ok st
  | .insLabel r =>
      if maximalCellLabelCond st.hs st.ls r then
        .error (.constraintViolation rootMsg)
      else if labelConstraintsOk st.hs st.ls r = false then
        .error (.constraintViolation "label constraint failed")
      else
        let ls1 := st.ls ++ [r]
        if (ls1.countP (fun l => l.label_id == none)) = 0 then
          .ok ⟨st.hs, ls1⟩
        else if 2 ≤ ls1.countP (fun l => l.label_id == none) then
          .error (.constraintViolation "UNIQUE constraint failed: label.label_id")
        else
          .ok ⟨st.hs, ls1.map (fun l =>
            if l.label_id == none then
              { l with label_id := some (maxCoalescedId ls1 0 + 1) }
            else l)⟩
  | .updLabel target r =>
      if st.ls.any (fun l => l.label_id == some target) then
        if maximalCellLabelCond st.hs st.ls r then
          .error (.constraintViolation rootMsg)
        else if labelConstraintsOk st.hs (st.ls.filter (fun l => !(l.label_id == some target))) r = false then
          .error (.constraintViolation "label constraint failed")
        else
          .ok ⟨st.hs, st.ls.map (fun l => if l.label_id == some target then r else l)⟩
      else
        .ok st
  | .delLabel p =>
      .ok ⟨st.hs, st.ls.filter (fun l => !(p l))⟩

/-- `hierarchy`/`label` states reachable from empty tables through statements
the constraints and triggers let through. -/
inductive ReachableLH : LHState → Prop where
  | init : ReachableLH ⟨[], []⟩
  | step (st : LHState) (stmt : LHStmt) (st' : LHState) :
      ReachableLH st → lhStep st stmt = .ok st' → ReachableLH st'

/-- The conditions the `hierarchy` table's declarative constraints impose on
its rows: values and levels non-NULL, values distinct, not `'cell_id'`, free
of `'.'`, levels distinct; ids are distinct because `hierarchy_id` is the
rowid. -/
def HierInv (hs : List HierarchyRow) : Prop :=
  (∀ r ∈ hs, ∃ v lvl, r.hierarchy_value = some v ∧ v ≠ "cell_id" ∧
      v.toList.contains '.' = false ∧ r.hierarchy_level = some lvl)
  ∧ hs.Pairwise (fun a b =>
      a.hierarchy_value ≠ b.hierarchy_value ∧ a.hierarchy_level ≠ b.hierarchy_level)
  ∧ (hs.map (·.hierarchy_id)).Nodup

/-- Definition following the claim's words (for comparison with the code's
triggers): the distinct label values of the root hierarchy that are in
active use through `cell_label` assignments, together with the `'UNMAPPED'`
sentinel. -/
def claimRootValuesInUse (hs : List HierarchyRow) (ls : List LabelRow)
    (cl : List CellLabelRow) : List (Option String) :=
  match rootId hs with
  | none => [some "UNMAPPED"]
  | some h =>
      (((ls.filter (fun l => l.hierarchy_id == h && l.label_id.isSome &&
          cl.any (fun r => r.hierarchy_id == some h && r.label_id == l.label_id))).map
        (·.label_value)) ++ [some "UNMAPPED"]).dedup

/-! ## `_Connector.__init__`: target resolution, validation, bootstrap -/

/-- Mode flag: create a temporary partition in RAM. -/
def IN_MEMORY : Nat := 1

/-- Mode flag: write a temporary partition to disk instead of using RAM. -/
def TEMP_FILE : Nat := 2

/-- Mode flag: connect to an existing Partition in read-only mode. -/
def READ_ONLY : Nat := 4

/-- The table-name set `_Connector._is_valid` requires, including
`sqlite_sequence` (the bookkeeping table AUTOINCREMENT creates). -/
def tablesRequired : List String :=
  ["cell", "hierarchy", "label", "cell_label", "partition", "edge", "weight",
   "relation", "relation_weight", "property", "sqlite_sequence"]

/-- `_Connector._is_valid`: the set of table names the file contains must
equal the required set exactly; a file the engine cannot read at all yields
the empty set (the `except sqlite3.DatabaseError` branch) and so fails. -/
def isValidPartition (readable : Bool) (tablesContained : List String) : Bool :=
  decide ((if readable then tablesContained.toFinset else ∅) = tablesRequired.toFinset)

/-- The storage target `_Connector.__init__` resolves to. -/
inductive Target where
  | existingFile (path : String)
  | newFile (path : String)
  | tempFile
  | memory
  deriving DecidableEq, Repr

/-- The file at the `database` path: whether it exists and, if so, which
tables it holds. -/
structure FileState where
  present : Bool
  tables : List String
  deriving DecidableEq, Repr

/-- `_Connector.__init__` (target resolution): an existing file is validated
(`_is_valid`) and never written; a missing file is created and bootstrapped
with the full schema whenever `database and (not mode or self._is_read_only)`
holds — read-only mode included — and also in the `IN_MEMORY`-flag and
fall-through branches, because `self._database` is already set to the given
path and the populate step runs `if self._database`.  Returns the outcome
together with the resulting state of the file at the path. -/
def connectorInit (database : Option String) (fs : FileState) (readable : Bool)
    (mode : Nat) : Except Err Target × FileState :=
  match database with
  | some path =>
    if fs.present then
      if isValidPartition readable fs.tables then
        (.ok (.existingFile path), fs)
      else
        (.error (.notAPartition ("File - " ++ path ++ " - is not a valid partition.")), fs)
    else
      if mode = 0 ∨ mode &&& READ_ONLY ≠ 0 then
        (.ok (.newFile path), ⟨true, tablesRequired⟩)
      else if mode &&& TEMP_FILE ≠ 0 then
        (.ok .tempFile, fs)
      else
        (.ok (.newFile path), ⟨true, tablesRequired⟩)
  | none =>
    if mode &&& TEMP_FILE ≠ 0 then
      (.ok .tempFile, fs)
    else
      (.ok .memory, fs)

/-! ## Read-only enforcement: `PRAGMA query_only` vs trigger fallback -/

/-- The kind of a mutating statement. -/
inductive MutKind where
  | ins
  | upd
  | del
  deriving DecidableEq, Repr

/-- A statement against a read-only handle: a read, or a mutation of a table
that would touch `affected` rows (`FOR EACH ROW` triggers fire once per
affected row; zero-row updates and deletes fire none). -/
inductive ROStmt where
  | select
  | mutate (k : MutKind) (table : String) (affected : Nat)
  deriving DecidableEq, Repr

/-- The ten Partition data tables. -/
def partitionTables : List String :=
  ["cell", "hierarchy", "label", "cell_label", "partition", "edge", "weight",
   "relation", "relation_weight", "property"]

/-- The tables guarded by `_all_read_only_triggers`, in its order. -/
def readOnlyTriggerTables : List String :=
  ["cell", "hierarchy", "label", "cell_label", "edge", "weight",
   "relation", "relation_weight", "property", "partition"]

/-- Native enforcement (`PRAGMA query_only=1`, SQLite >= 3.8.0): every
mutation is rejected outright, reads pass. -/
def nativeReadOnlyExec : ROStmt → Except Err Unit
  | .select => .ok ()
  | .mutate _ _ _ => .error .readOnlyViolation

/-- Fallback enforcement (`_all_read_only_triggers`, older SQLite): a
BEFORE INSERT/UPDATE/DELETE `FOR EACH ROW` trigger on each guarded table
aborts, so a mutation is rejected iff its table is guarded and it would
affect at least one row; reads pass. -/
def fallbackReadOnlyExec : ROStmt → Except Err Unit
  | .select => .ok ()
  | .mutate _ t n =>
      if t ∈ readOnlyTriggerTables ∧ 0 < n then .error .readOnlyViolation else .ok ()

/-! ## `_ConnectionWrapper` for shared in-memory connections -/

/-- The master in-memory connection `_Connector` keeps alive: committed and
uncommitted (pending-transaction) rows, the isolation level, and whether the
underlying connection has been truly closed. -/
structure MemMaster where
  committed : List Int
  uncommitted : List Int
  isolationLevel : Option String
  closed : Bool
  deriving DecidableEq, Repr

/-- `_ConnectionWrapper.__init__` stores the master's isolation level. -/
structure ConnWrapper where
  savedIsolation : Option String
  deriving DecidableEq, Repr

/-- Wrap the master connection, saving `self._conn.isolation_level`. -/
def wrapConnection (m : MemMaster) : ConnWrapper := ⟨m.isolationLevel⟩

/-- `_ConnectionWrapper.close`: roll back uncommitted work on the master; a
`ProgrammingError` from an already-closed master is swallowed.  The master is
never actually closed. -/
def wrapperClose (m : MemMaster) : MemMaster :=
  if m.closed then m else { m with uncommitted := [] }

/-- `_ConnectionWrapper.__del__`: restore the saved isolation level on the
master, then `close` (roll back). -/
def wrapperDel (w : ConnWrapper) (m : MemMaster) : MemMaster :=
  wrapperClose { m with isolationLevel := w.savedIsolation }

/-- Operations forwarded to a connection. -/
inductive ConnOp where
  | write (x : Int)
  | commit
  | readAll
  deriving DecidableEq, Repr

/-- Executing an operation directly on the master connection. -/
def masterExec (m : MemMaster) : ConnOp → MemMaster × Option (List Int)
  | .write x => ({ m with uncommitted := m.uncommitted ++ [x] }, none)
  | .commit => ({ m with committed := m.committed ++ m.uncommitted, uncommitted := [] }, none)
  | .readAll => (m, some (m.committed ++ m.uncommitted))

/-- `_ConnectionWrapper.__getattr__` delegates every operation to the wrapped
master connection unchanged. -/
def wrapperExec (w : ConnWrapper) (m : MemMaster) (op : ConnOp) :
    MemMaster × Option (List Int) :=
  masterExec m op

/-! ## The `partition` table and `UNIQUE ON CONFLICT REPLACE` -/

/-- A row of the `partition` table: `partition_id INTEGER PRIMARY KEY`,
`partition_hash TEXT UNIQUE ON CONFLICT REPLACE NOT NULL`, `created_date`. -/
structure PartitionRow where
  partition_id : Option Int
  partition_hash : Option String
  created_date : Int
  deriving DecidableEq, Repr

/-- The rowid SQLite assigns to a row inserted without an explicit
`partition_id`: one more than the largest rowid in use. -/
def maxPartitionId (rows : List PartitionRow) : Int :=
  rows.foldl (fun m r => max m (r.partition_id.getD 0)) 0

/-- An insert or delete against the `partition` table. -/
inductive PStmt where
  | insP (r : PartitionRow)
  | delP (p : PartitionRow → Bool)

/-- Execute one statement on the `partition` table.  A NULL hash violates
NOT NULL; otherwise `UNIQUE ON CONFLICT REPLACE` on `partition_hash` deletes
any row already carrying the same hash and the insert proceeds without
error.  A conflicting explicit `partition_id` (against the remaining rows)
aborts, since the primary key carries no REPLACE clause. -/
def partitionStep (rows : List PartitionRow) : PStmt → Except Err (List PartitionRow)
  | .insP r =>
    match r.partition_hash with
    | none => .error (.constraintViolation "NOT NULL constraint failed: partition.partition_hash")
    | some h =>
      let kept := rows.filter (fun x => !(x.partition_hash == some h))
      let rid := match r.partition_id with
        | some i => i
        | none => maxPartitionId kept + 1
      if (match r.partition_id with
          | some i => kept.any (fun x => x.partition_id == some i)
          | none => false) then
        .error (.constraintViolation "UNIQUE constraint failed: partition.partition_id")
      else
        .ok (kept ++ [{ r with partition_id := some rid }])
  | .delP p => .ok (rows.filter (fun x => !(p x)))

/-- `partition` states reachable from an empty table through inserts and
deletes. -/
inductive ReachableP : List PartitionRow → Prop where
  | nil : ReachableP []
  | step (rows : List PartitionRow) (stmt : PStmt) (rows' : List PartitionRow) :
      ReachableP rows → partitionStep rows stmt = .ok rows' → ReachableP rows'

/-! ## `_Connector._path_to_uri`, modelled from the spec -/

/-- Split a character list on a separator character. -/
def splitOnChar (c : Char) : List Char → List (List Char)
  | [] => [[]]
  | x :: rest =>
    match splitOnChar c rest, decide (x = c) with
    | r, true => [] :: r
    | [], false => [[x]]
    | g :: gs, false => (x :: g) :: gs

/-- Join character-list segments with a separator character. -/
def joinChar (c : Char) : List (List Char) → List Char
  | [] => []
  | [g] => g
  | g :: gs => g ++ c :: joinChar c gs

/-- The uppercase hexadecimal digit for a value below 16. -/
def hexDigitChar : Nat → Char
  | 0 => '0'
  | 1 => '1'
  | 2 => '2'
  | 3 => '3'
  | 4 => '4'
  | 5 => '5'
  | 6 => '6'
  | 7 => '7'
  | 8 => '8'
  | 9 => '9'
  | 10 => 'A'
  | 11 => 'B'
  | 12 => 'C'
  | 13 => 'D'
  | 14 => 'E'
  | 15 => 'F'
  | _ => '0'

/-- Characters a locator keeps unencoded: alphanumerics, `_`, `.`, `-`, `~`
and the path separator `/`; everything else (`?`, `#`, ...) is
percent-encoded. -/
def isSafeChar (c : Char) : Bool :=
  c.isAlphanum || c = '_' || c = '.' || c = '-' || c = '~' || c = '/'

/-- Percent-encode a character list: reserved characters become `%XX` with
uppercase hexadecimal digits. -/
def quoteChars : List Char → List Char
  | [] => []
  | c :: rest =>
      (if isSafeChar c then [c]
       else ['%', hexDigitChar (c.toNat / 16 % 16), hexDigitChar (c.toNat % 16)])
      ++ quoteChars rest

/-- Modelled from the spec: the percent-encoding step of
`_Connector._path_to_uri`, whose implementation is not under `src` (only its
tests are) — reserved characters such as `?` and `#` are `%XX`-encoded. -/
def quoteStr (s : String) : String := ⟨quoteChars s.toList⟩

/-- Modelled from the spec: the path-normalization step of
`_Connector._path_to_uri` — relative segments such as `..` (and `.`) are
resolved and trailing separators stripped. -/
def normalizePath (p : String) : String :=
  let cs := p.toList
  let abs : Bool := match cs with
    | [] => false
    | c :: _ => c == '/'
  let stack := (splitOnChar '/' cs).foldl (fun acc s =>
    if s = [] ∨ s = ['.'] then acc
    else if s = ['.', '.'] then
      match acc with
      | [] => if abs then [] else [['.', '.']]
      | a :: rest => if a = ['.', '.'] then s :: acc else rest
    else s :: acc) []
  let body := joinChar '/' stack.reverse
  if abs then ⟨'/' :: body⟩ else if body = [] then "." else ⟨body⟩

/-- Lexicographic comparison of character lists by code point (the ordering
of string keys in a query string). -/
def charListLe : List Char → List Char → Bool
  | [], _ => true
  | _ :: _, [] => false
  | a :: as, b :: bs =>
      if a.toNat = b.toNat then charListLe as bs else decide (a.toNat < b.toNat)

/-- Query parameters are ordered by their keys. -/
def pairKeyLe (a b : String × String) : Prop := charListLe a.1.toList b.1.toList = true

instance : DecidableRel pairKeyLe := fun _ _ => inferInstanceAs (Decidable (_ = true))

/-- Modelled from the spec: `_Connector._path_to_uri` (missing from `src`;
only `src/gpn/tests/test_partition.py` exercises it) — produce
`file:<normalized-path>[?<sorted query string>]`, dropping parameters whose
value is the none marker, percent-encoding the rest and joining them
`&`-separated in ascending key order. -/
def path_to_uri (p : String) (params : List (String × Option String)) : String :=
  let present := params.filterMap (fun kv => kv.2.map (fun v => (kv.1, v)))
  let sorted := List.insertionSort pairKeyLe present
  let query := sorted.map (fun kv => quoteStr kv.1 ++ "=" ++ quoteStr kv.2)
  "file:" ++ quoteStr (normalizePath p)
    ++ (if sorted.isEmpty then "" else "?" ++ String.intercalate "&" query)

lemma combo_eq_of_pairs_eq {rows : List CellLabelRow} {c1 c2 : Option Int}
    (h : pairsOf rows c1 = pairsOf rows c2) : comboOf rows c1 = comboOf rows c2 := by
  have hperm : ((rowsOfCell rows c1).map (fun r => (r.hierarchy_id, r.label_id))).Perm
      ((rowsOfCell rows c2).map (fun r => (r.hierarchy_id, r.label_id))) := by
    exact Multiset.coe_eq_coe.mp h
  have hfm : ∀ c : Option Int,
      ((rowsOfCell rows c).map (fun r => (r.hierarchy_id, r.label_id))).filterMap (fun x => x.2)
        = labelIdsOf rows c := by
    intro c
    rw [List.filterMap_map]
    rfl
  have hids : (labelIdsOf rows c1).Perm (labelIdsOf rows c2) := by
    rw [← hfm c1, ← hfm c2]
    exact hperm.filterMap _
  haveI : IsAntisymm Int (fun x1 x2 : Int => x1 ≤ x2) :=
    ⟨fun _ _ hab hba => le_antisymm hab hba⟩
  have hsorted : sortedLabelIdsOf rows c1 = sortedLabelIdsOf rows c2 :=
    List.eq_of_perm_of_sorted
      (((List.perm_insertionSort _ _).trans hids).trans (List.perm_insertionSort _ _).symm)
      (List.sorted_insertionSort _ _) (List.sorted_insertionSort _ _)
  simp [comboOf, hsorted]

lemma check_true_of_dup {rows : List CellLabelRow} {c1 c2 : Option Int}
    (h1 : c1 ∈ cellIdsOf rows) (h2 : c2 ∈ cellIdsOf rows) (hne : c1 ≠ c2)
    (heq : pairsOf rows c1 = pairsOf rows c2) : checkUniqueLabels rows = true := by
  have hcombo := combo_eq_of_pairs_eq heq
  simp only [checkUniqueLabels, decide_eq_true_eq]
  intro hnodup
  exact hne (List.inj_on_of_nodup_map hnodup h1 h2 hcombo)

lemma cellLabelStep_ok_check {cells : List Int} {labels : List LabelRow}
    {rows rows' : List CellLabelRow} {stmt : CLStmt}
    (h : cellLabelStep cells labels rows stmt = .ok rows') :
    rows' = applyCL rows stmt ∧ checkUniqueLabels rows' = false := by
  unfold cellLabelStep at h
  by_cases h1 : clConstraintsOk cells labels rows stmt = false
  · simp [h1] at h
  · simp only [h1, if_false] at h
    by_cases h2 : checkUniqueLabels (applyCL rows stmt) = true
    · simp [h2] at h
    · simp only [h2, if_false] at h
      cases h
      exact ⟨rfl, by simpa using h2⟩

lemma cellLabelStep_err_of_dup {cells : List Int} {labels : List LabelRow}
    {rows : List CellLabelRow} {stmt : CLStmt}
    (h : checkUniqueLabels (applyCL rows stmt) = true) :
    ∃ m, cellLabelStep cells labels rows stmt = .error (.constraintViolation m) := by
  unfold cellLabelStep
  by_cases h1 : clConstraintsOk cells labels rows stmt = false
  · exact ⟨"FOREIGN KEY or UNIQUE constraint failed", by simp [h1]⟩
  · exact ⟨"CHECK constraint failed: cell_label (duplicate label set)", by simp [h1, h]⟩

/-- C1: a `cell_label` statement whose post-state would give two distinct
cells the same multiset of assigned `(hierarchy_id, label_id)` pairs aborts
with a ConstraintViolation (the `CheckUniqueLabels_*` triggers evaluate the
grouped `label_combo` signatures of the whole relation transactionally with
the statement), and consequently in every reachable `cell_label` state no two
distinct cells present in the relation carry the same full label set. -/
theorem C1_unique_label_sets :
    (∀ (cells : List Int) (labels : List LabelRow) (rows : List CellLabelRow)
        (stmt : CLStmt) (c1 c2 : Option Int),
        c1 ∈ cellIdsOf (applyCL rows stmt) → c2 ∈ cellIdsOf (applyCL rows stmt) →
        c1 ≠ c2 → pairsOf (applyCL rows stmt) c1 = pairsOf (applyCL rows stmt) c2 →
        ∃ m, cellLabelStep cells labels rows stmt = .error (.constraintViolation m))
    ∧ (∀ rows : List CellLabelRow, ReachableCL rows →
        ∀ c1 c2 : Option Int, c1 ∈ cellIdsOf rows → c2 ∈ cellIdsOf rows →
        c1 ≠ c2 → pairsOf rows c1 ≠ pairsOf rows c2) := by
  constructor
  · intro cells labels rows stmt c1 c2 h1 h2 hne heq
    exact cellLabelStep_err_of_dup (check_true_of_dup h1 h2 hne heq)
  · intro rows hreach
    have hck : checkUniqueLabels rows = false := by
      cases hreach with
      | nil => rfl
      | step cells labels rows0 stmt rows' _ hok =>
          exact (cellLabelStep_ok_check hok).2
    intro c1 c2 h1 h2 hne heq
    rw [check_true_of_dup h1 h2 hne heq] at hck
    cases hck

/-- Witness for C1: in a state where cell 1 already carries exactly the pair
`(hierarchy 1, label 1)`, inserting a `cell_label` row that gives cell 2 the
same single pair aborts with a ConstraintViolation. -/
theorem C1_unique_label_sets_witness :
    ∃ m, cellLabelStep [1, 2] [⟨some 1, 1, some "A"⟩]
        [⟨some 1, some 1, some 1, some 1⟩]
        (CLStmt.ins ⟨some 2, some 2, some 1, some 1⟩)
      = .error (.constraintViolation m) :=
  C1_unique_label_sets.1 [1, 2] [⟨some 1, 1, some "A"⟩]
    [⟨some 1, some 1, some 1, some 1⟩] (CLStmt.ins ⟨some 2, some 2, some 1, some 1⟩)
    (some 1) (some 2) (by decide) (by decide) (by decide) (by decide)

/-! ### Helper lemmas for the `hierarchy`/`label` executor -/

lemma hierRowOk_iff {others : List HierarchyRow} {r : HierarchyRow} :
    hierRowOk others r = true ↔
    ∃ v lvl, r.hierarchy_value = some v ∧ v ≠ "cell_id" ∧ v.toList.contains '.' = false ∧
      (∀ x ∈ others, x.hierarchy_value ≠ some v) ∧
      r.hierarchy_level = some lvl ∧ (∀ x ∈ others, x.hierarchy_level ≠ some lvl) := by
  cases hv : r.hierarchy_value with
  | none => simp [hierRowOk, hv]
  | some v =>
    cases hl : r.hierarchy_level with
    | none => simp [hierRowOk, hv, hl]
    | some lvl =>
      simp only [hierRowOk, hv, hl, Bool.and_eq_true, bne_iff_ne, ne_eq,
        Bool.not_eq_true', List.any_eq_false, beq_iff_eq, Option.some.injEq]
      constructor
      · rintro ⟨⟨⟨hne, hdot⟩, hvals⟩, hlvls⟩
        exact ⟨v, lvl, rfl, hne, hdot, hvals, rfl, hlvls⟩
      · rintro ⟨v', lvl', rfl, hne, hdot, hvals, rfl, hlvls⟩
        exact ⟨⟨⟨hne, hdot⟩, hvals⟩, hlvls⟩

lemma insHier_ok {st : LHState} {r : HierarchyRow} {st' : LHState}
    (h : lhStep st (.insHier r) = .ok st') :
    (st.hs.any (fun x => x.hierarchy_id == r.hierarchy_id)) = false
      ∧ hierRowOk st.hs r = true ∧ st' = ⟨st.hs ++ [r], st.ls⟩ := by
  simp only [lhStep] at h
  split at h
  · exact absurd h (by simp)
  · split at h
    · exact absurd h (by simp)
    · rename_i h1 h2
      injection h with h
      exact ⟨by simpa using h1, by simpa using h2, h.symm⟩

lemma updHier_ok {st : LHState} {target : Int} {v : Option String} {lvl : Option Int}
    {st' : LHState}
    (hany : (st.hs.any (fun x => x.hierarchy_id == target)) = true)
    (h : lhStep st (.updHier target v lvl) = .ok st') :
    hierRowOk (st.hs.filter (fun x => !(x.hierarchy_id == target))) ⟨target, v, lvl⟩ = true
      ∧ maximalCellHierarchyCond
          (st.hs.map (fun x => if x.hierarchy_id == target then ⟨target, v, lvl⟩ else x)) st.ls
          = false
      ∧ st' = ⟨st.hs.map (fun x => if x.hierarchy_id == target then ⟨target, v, lvl⟩ else x),
          st.ls⟩ := by
  simp only [lhStep] at h
  rw [if_pos hany] at h
  split at h
  · exact absurd h (by simp)
  · split at h
    · exact absurd h (by simp)
    · rename_i h2 h3
      injection h with h
      exact ⟨by simpa using h2, by simpa using h3, h.symm⟩

lemma delHier_ok {st : LHState} {target : Int} {st' : LHState}
    (hany : (st.hs.any (fun x => x.hierarchy_id == target)) = true)
    (h : lhStep st (.delHier target) = .ok st') :
    (st.ls.any (fun l => l.hierarchy_id == target)) = false
      ∧ maximalCellHierarchyCond (st.hs.filter (fun x => !(x.hierarchy_id == target))) st.ls
          = false
      ∧ st' = ⟨st.hs.filter (fun x => !(x.hierarchy_id == target)), st.ls⟩ := by
  simp only [lhStep] at h
  rw [if_pos hany] at h
  split at h
  · exact absurd h (by simp)
  · split at h
    · exact absurd h (by simp)
    · rename_i h2 h3
      injection h with h
      exact ⟨by simpa using h2, by simpa using h3, h.symm⟩

lemma updHier_noMatch {st : LHState} {target : Int} {v : Option String} {lvl : Option Int}
    {st' : LHState}
    (hany : (st.hs.any (fun x => x.hierarchy_id == target)) = false)
    (h : lhStep st (.updHier target v lvl) = .ok st') : st' = st := by
  simp only [lhStep] at h
  rw [if_neg (by simp [hany])] at h
  injection h with h
  exact h.symm

lemma delHier_noMatch {st : LHState} {target : Int} {st' : LHState}
    (hany : (st.hs.any (fun x => x.hierarchy_id == target)) = false)
    (h : lhStep st (.delHier target) = .ok st') : st' = st := by
  simp only [lhStep] at h
  rw [if_neg (by simp [hany])] at h
  injection h with h
  exact h.symm

lemma insLabel_ok_hs {st : LHState} {r : LabelRow} {st' : LHState}
    (h : lhStep st (.insLabel r) = .ok st') : st'.hs = st.hs := by
  simp only [lhStep] at h
  split at h
  · exact absurd h (by simp)
  · split at h
    · exact absurd h (by simp)
    · split at h
      · injection h with h
        subst h
        rfl
      · split at h
        · exact absurd h (by simp)
        · injection h with h
          subst h
          rfl

lemma updLabel_ok_hs {st : LHState} {target : Int} {r : LabelRow} {st' : LHState}
    (h : lhStep st (.updLabel target r) = .ok st') : st'.hs = st.hs := by
  simp only [lhStep] at h
  split at h
  · split at h
    · exact absurd h (by simp)
    · split at h
      · exact absurd h (by simp)
      · injection h with h
        subst h
        rfl
  · injection h with h
    subst h
    rfl

lemma delLabel_ok_hs {st : LHState} {p : LabelRow → Bool} {st' : LHState}
    (h : lhStep st (.delLabel p) = .ok st') : st'.hs = st.hs := by
  simp only [lhStep] at h
  injection h with h
  subst h
  rfl

lemma hierInv_nil : HierInv [] := by
  refine ⟨?_, List.Pairwise.nil, List.nodup_nil⟩
  intro r hr
  exact absurd hr (List.not_mem_nil r)

lemma hierInv_insHier {st : LHState} {r : HierarchyRow} {st' : LHState}
    (hinv : HierInv st.hs) (h : lhStep st (.insHier r) = .ok st') : HierInv st'.hs := by
  obtain ⟨hna, hok, rfl⟩ := insHier_ok h
  obtain ⟨v, lvl, hv, hne, hdot, hvals, hl, hlvls⟩ := hierRowOk_iff.mp hok
  obtain ⟨hpt, hpw, hnd⟩ := hinv
  have hid : ∀ x ∈ st.hs, x.hierarchy_id ≠ r.hierarchy_id := by
    intro x hx
    have := List.any_eq_false.mp hna x hx
    simpa using this
  refine ⟨?_, ?_, ?_⟩
  · intro x hx
    rcases List.mem_append.mp hx with hx | hx
    · exact hpt x hx
    · rcases List.mem_singleton.mp hx with rfl
      exact ⟨v, lvl, hv, hne, hdot, hl⟩
  · refine List.pairwise_append.mpr ⟨hpw, List.pairwise_singleton _ _, ?_⟩
    intro a ha b hb
    rcases List.mem_singleton.mp hb with rfl
    refine ⟨?_, ?_⟩
    · rw [hv]
      exact hvals a ha
    · rw [hl]
      exact hlvls a ha
  · rw [List.map_append]
    refine List.Nodup.append hnd (List.nodup_singleton _) ?_
    intro i hi hi'
    rcases List.mem_singleton.mp hi' with rfl
    obtain ⟨x, hx, hxi⟩ := List.mem_map.mp hi
    exact hid x hx hxi

lemma mem_filter_ne_target {hs : List HierarchyRow} {target : Int} {x : HierarchyRow}
    (hx : x ∈ hs) (hxt : x.hierarchy_id ≠ target) :
    x ∈ hs.filter (fun x => !(x.hierarchy_id == target)) := by
  rw [List.mem_filter]
  exact ⟨hx, by simpa using hxt⟩

lemma hierInv_updHier {st : LHState} {target : Int} {v : Option String} {lvl : Option Int}
    {st' : LHState}
    (hinv : HierInv st.hs) (h : lhStep st (.updHier target v lvl) = .ok st') :
    HierInv st'.hs := by
  cases hany : st.hs.any (fun x => x.hierarchy_id == target) with
  | false =>
    rw [updHier_noMatch hany h]
    exact hinv
  | true =>
    obtain ⟨hok, _, rfl⟩ := updHier_ok hany h
    obtain ⟨v0, lvl0, hv, hne, hdot, hvals, hl, hlvls⟩ := hierRowOk_iff.mp hok
    have hv' : v = some v0 := hv
    have hl' : lvl = some lvl0 := hl
    subst hv'
    subst hl'
    obtain ⟨hpt, hpw, hnd⟩ := hinv
    have hinj : ∀ x ∈ st.hs, ∀ y ∈ st.hs, x.hierarchy_id = y.hierarchy_id → x = y :=
      fun x hx y hy hxy => List.inj_on_of_nodup_map hnd hx hy hxy
    have hvals' : ∀ x ∈ st.hs, x.hierarchy_id ≠ target → x.hierarchy_value ≠ some v0 :=
      fun x hx hxt => hvals x (mem_filter_ne_target hx hxt)
    have hlvls' : ∀ x ∈ st.hs, x.hierarchy_id ≠ target → x.hierarchy_level ≠ some lvl0 :=
      fun x hx hxt => hlvls x (mem_filter_ne_target hx hxt)
    refine ⟨?_, ?_, ?_⟩
    · intro x' hx'
      obtain ⟨x, hx, rfl⟩ := List.mem_map.mp hx'
      by_cases hxt : x.hierarchy_id = target
      · rw [if_pos (by simpa using hxt)]
        exact ⟨v0, lvl0, rfl, hne, hdot, rfl⟩
      · rw [if_neg (by simpa using hxt)]
        exact hpt x hx
    · rw [List.pairwise_map]
      refine hpw.imp_of_mem ?_
      intro a b ha hb hab
      by_cases hat : a.hierarchy_id = target
      · by_cases hbt : b.hierarchy_id = target
        · have hab' : a = b := hinj a ha b hb (hat.trans hbt.symm)
          rw [hab'] at hab
          exact absurd rfl hab.1
        · rw [if_pos (by simpa using hat), if_neg (by simpa using hbt)]
          exact ⟨fun hc => (hvals' b hb hbt) hc.symm, fun hc => (hlvls' b hb hbt) hc.symm⟩
      · by_cases hbt : b.hierarchy_id = target
        · rw [if_neg (by simpa using hat), if_pos (by simpa using hbt)]
          exact ⟨hvals' a ha hat, hlvls' a ha hat⟩
        · rw [if_neg (by simpa using hat), if_neg (by simpa using hbt)]
          exact hab
    · have hids : (st.hs.map (fun x =>
          if x.hierarchy_id == target then (⟨target, some v0, some lvl0⟩ : HierarchyRow) else x)).map
            (·.hierarchy_id) = st.hs.map (·.hierarchy_id) := by
        rw [List.map_map]
        apply List.map_congr_left
        intro x _
        by_cases hxt : x.hierarchy_id = target
        · simp [hxt]
        · simp [hxt]
      rw [hids]
      exact hnd

lemma hierInv_delHier {st : LHState} {target : Int} {st' : LHState}
    (hinv : HierInv st.hs) (h : lhStep st (.delHier target) = .ok st') : HierInv st'.hs := by
  cases hany : st.hs.any (fun x => x.hierarchy_id == target) with
  | false =>
    rw [delHier_noMatch hany h]
    exact hinv
  | true =>
    obtain ⟨_, _, rfl⟩ := delHier_ok hany h
    obtain ⟨hpt, hpw, hnd⟩ := hinv
    refine ⟨?_, ?_, ?_⟩
    · intro x hx
      exact hpt x (List.mem_of_mem_filter hx)
    · exact hpw.filter _
    · exact List.Nodup.sublist (List.Sublist.map _ (List.filter_sublist _)) hnd

lemma le_maxCoalescedId_init : ∀ (ls : List LabelRow) (a : Int), a ≤ maxCoalescedId ls a := by
  intro ls
  induction ls with
  | nil =>
    intro a
    simp [maxCoalescedId]
  | cons x t ih =>
    intro a
    have h1 : maxCoalescedId (x :: t) a = maxCoalescedId t (max a (coalesceId x)) := rfl
    rw [h1]
    exact le_trans (le_max_left _ _) (ih _)

lemma mem_le_maxCoalescedId : ∀ {ls : List LabelRow} {l : LabelRow} (a : Int),
    l ∈ ls → coalesceId l ≤ maxCoalescedId ls a := by
  intro ls
  induction ls with
  | nil =>
    intro l a hl
    exact absurd hl (List.not_mem_nil l)
  | cons x t ih =>
    intro l a hl
    have h1 : maxCoalescedId (x :: t) a = maxCoalescedId t (max a (coalesceId x)) := rfl
    rcases List.mem_cons.mp hl with rfl | hl
    · rw [h1]
      exact le_trans (le_max_right _ _) (le_maxCoalescedId_init _ _)
    · rw [h1]
      exact ih _ hl

lemma insLabel_auto {st : LHState} {h0 : Int} {v : Option String} {st' : LHState}
    (hnn : ∀ l ∈ st.ls, l.label_id ≠ none)
    (h : lhStep st (.insLabel ⟨none, h0, v⟩) = .ok st') :
    st'.ls = st.ls ++ [⟨some (maxCoalescedId st.ls 0 + 1), h0, v⟩] := by
  simp only [lhStep] at h
  split at h
  · exact absurd h (by simp)
  · split at h
    · exact absurd h (by simp)
    · have hcount : (st.ls ++ [(⟨none, h0, v⟩ : LabelRow)]).countP
          (fun l => l.label_id == none) = 1 := by
        rw [List.countP_append]
        have hcount0 : st.ls.countP (fun l => l.label_id == none) = 0 := by
          rw [List.countP_eq_zero]
          intro l hl
          simpa using hnn l hl
        rw [hcount0]
        rfl
      rw [hcount] at h
      rw [if_neg (by decide : ¬(1 = 0)), if_neg (by decide : ¬(2 ≤ 1))] at h
      have hmax : maxCoalescedId (st.ls ++ [(⟨none, h0, v⟩ : LabelRow)]) 0
          = maxCoalescedId st.ls 0 := by
        unfold maxCoalescedId
        rw [List.foldl_append]
        have h2 : coalesceId ⟨none, h0, v⟩ = 0 := rfl
        simp only [List.foldl_cons, List.foldl_nil, h2]
        exact max_eq_left (le_maxCoalescedId_init st.ls 0)
      have hmap : (st.ls ++ [(⟨none, h0, v⟩ : LabelRow)]).map (fun l =>
          if l.label_id == none then
            { l with label_id := some (maxCoalescedId (st.ls ++ [(⟨none, h0, v⟩ : LabelRow)]) 0 + 1) }
          else l)
          = st.ls ++ [⟨some (maxCoalescedId st.ls 0 + 1), h0, v⟩] := by
        rw [List.map_append]
        congr 1
        · conv_rhs => rw [← List.map_id st.ls]
          apply List.map_congr_left
          intro l hl
          simp [beq_eq_false_iff_ne.mpr (hnn l hl)]
        · rw [hmax]
          rfl
      rw [hmap] at h
      injection h with h
      subst h
      rfl

/-- C10: an insert or update on the `hierarchy` table is accepted only if the
candidate row's `hierarchy_value` is non-null, differs from the string
`'cell_id'`, contains no `'.'` character and is distinct from every other
row's value, and its `hierarchy_level` is non-null and distinct from every
other row's level; consequently these conditions (`HierInv`) hold of the
`hierarchy` table in every reachable state. -/
theorem C10_hierarchy_constraints :
    (∀ (st : LHState) (r : HierarchyRow) (st' : LHState),
        lhStep st (.insHier r) = .ok st' →
        ∃ v lvl, r.hierarchy_value = some v ∧ v ≠ "cell_id" ∧ v.toList.contains '.' = false ∧
          (∀ x ∈ st.hs, x.hierarchy_value ≠ some v) ∧
          r.hierarchy_level = some lvl ∧ (∀ x ∈ st.hs, x.hierarchy_level ≠ some lvl))
    ∧ (∀ (st : LHState) (target : Int) (v : Option String) (lvl : Option Int) (st' : LHState),
        (st.hs.any (fun x => x.hierarchy_id == target)) = true →
        lhStep st (.updHier target v lvl) = .ok st' →
        ∃ v0 lvl0, v = some v0 ∧ v0 ≠ "cell_id" ∧ v0.toList.contains '.' = false ∧
          (∀ x ∈ st.hs, x.hierarchy_id ≠ target → x.hierarchy_value ≠ some v0) ∧
          lvl = some lvl0 ∧
          (∀ x ∈ st.hs, x.hierarchy_id ≠ target → x.hierarchy_level ≠ some lvl0))
    ∧ (∀ st : LHState, ReachableLH st → HierInv st.hs) := by
  refine ⟨?_, ?_, ?_⟩
  · intro st r st' h
    obtain ⟨_, hok, _⟩ := insHier_ok h
    exact hierRowOk_iff.mp hok
  · intro st target v lvl st' hany h
    obtain ⟨hok, _, _⟩ := updHier_ok hany h
    obtain ⟨v0, lvl0, hv, hne, hdot, hvals, hl, hlvls⟩ := hierRowOk_iff.mp hok
    exact ⟨v0, lvl0, hv, hne, hdot,
      fun x hx hxt => hvals x (mem_filter_ne_target hx hxt), hl,
      fun x hx hxt => hlvls x (mem_filter_ne_target hx hxt)⟩
  · intro st hreach
    induction hreach with
    | init => exact hierInv_nil
    | step st0 stmt st1 _ hok ih =>
      cases stmt with
      | insHier r => exact hierInv_insHier ih hok
      | updHier target v lvl => exact hierInv_updHier ih hok
      | delHier target => exact hierInv_delHier ih hok
      | insLabel r =>
        rw [insLabel_ok_hs hok]
        exact ih
      | updLabel target r =>
        rw [updLabel_ok_hs hok]
        exact ih
      | delLabel p =>
        rw [delLabel_ok_hs hok]
        exact ih

/-- Witness for C10: inserting `(1, 'region', 0)` into an empty hierarchy
table succeeds and satisfies all the column conditions, and the resulting
one-row state (reachable from empty) satisfies the hierarchy invariant. -/
theorem C10_hierarchy_constraints_witness :
    (∃ v lvl, (⟨1, some "region", some 0⟩ : HierarchyRow).hierarchy_value = some v ∧
        v ≠ "cell_id" ∧ v.toList.contains '.' = false ∧
        (∀ x ∈ (⟨[], []⟩ : LHState).hs, x.hierarchy_value ≠ some v) ∧
        (⟨1, some "region", some 0⟩ : HierarchyRow).hierarchy_level = some lvl ∧
        (∀ x ∈ (⟨[], []⟩ : LHState).hs, x.hierarchy_level ≠ some lvl))
    ∧ HierInv (⟨[⟨1, some "region", some 0⟩], []⟩ : LHState).hs :=
  ⟨C10_hierarchy_constraints.1 ⟨[], []⟩ ⟨1, some "region", some 0⟩
      ⟨[⟨1, some "region", some 0⟩], []⟩ (by rfl),
   C10_hierarchy_constraints.2.2 ⟨[⟨1, some "region", some 0⟩], []⟩
      (ReachableLH.step ⟨[], []⟩ (.insHier ⟨1, some "region", some 0⟩)
        ⟨[⟨1, some "region", some 0⟩], []⟩ ReachableLH.init (by rfl))⟩

/-- C5: `AutoIncrementLabelId` — inserting a `label` row with NULL
`label_id` (into a table whose rows all carry ids, as every reachable
post-insert state does) assigns `MAX(COALESCE(label_id, 0)) + 1` computed
over the whole `label` table regardless of the row's hierarchy, and the
assigned id differs from every id already present, so an explicitly supplied
id never collides with a later auto-assigned one. -/
theorem C5_label_auto_increment :
    ∀ (st : LHState) (h0 : Int) (v : Option String) (st' : LHState),
      (∀ l ∈ st.ls, l.label_id ≠ none) →
      lhStep st (.insLabel ⟨none, h0, v⟩) = .ok st' →
      st'.ls = st.ls ++ [⟨some (maxCoalescedId st.ls 0 + 1), h0, v⟩]
        ∧ ∀ l ∈ st.ls, ∀ e : Int, l.label_id = some e → e ≠ maxCoalescedId st.ls 0 + 1 := by
  intro st h0 v st' hnn h
  refine ⟨insLabel_auto hnn h, ?_⟩
  intro l hl e he
  have h1 : coalesceId l ≤ maxCoalescedId st.ls 0 := mem_le_maxCoalescedId 0 hl
  have h2 : coalesceId l = e := by simp [coalesceId, he]
  omega

/-- Witness for C5: with labels `(1, 'Ohio')` and an explicit `(4, 'Indiana')`
under hierarchy 2 (not the root), inserting `(NULL, 2, 'Iowa')` assigns
id `max(4, 0) + 1 = 5`, colliding with no existing id. -/
theorem C5_label_auto_increment_witness :
    (⟨[⟨1, some "region", some 0⟩, ⟨2, some "state", some 1⟩],
        [⟨some 1, 2, some "Ohio"⟩, ⟨some 4, 2, some "Indiana"⟩, ⟨some 5, 2, some "Iowa"⟩]⟩
      : LHState).ls
      = [⟨some 1, 2, some "Ohio"⟩, ⟨some 4, 2, some "Indiana"⟩]
        ++ [⟨some (maxCoalescedId [⟨some 1, 2, some "Ohio"⟩, ⟨some 4, 2, some "Indiana"⟩] 0 + 1),
            2, some "Iowa"⟩]
    ∧ ∀ l ∈ [(⟨some 1, 2, some "Ohio"⟩ : LabelRow), ⟨some 4, 2, some "Indiana"⟩], ∀ e : Int,
        l.label_id = some e →
        e ≠ maxCoalescedId [⟨some 1, 2, some "Ohio"⟩, ⟨some 4, 2, some "Indiana"⟩] 0 + 1 :=
  C5_label_auto_increment
    ⟨[⟨1, some "region", some 0⟩, ⟨2, some "state", some 1⟩],
      [⟨some 1, 2, some "Ohio"⟩, ⟨some 4, 2, some "Indiana"⟩]⟩
    2 (some "Iowa")
    ⟨[⟨1, some "region", some 0⟩, ⟨2, some "state", some 1⟩],
      [⟨some 1, 2, some "Ohio"⟩, ⟨some 4, 2, some "Indiana"⟩, ⟨some 5, 2, some "Iowa"⟩]⟩
    (by decide) (by rfl)

/-- C2 (counterexample): the claim attaches the singular-root-value guard to
inserts/updates on `cell_label`, but no trigger on `cell_label` performs that
check.  Concretely: with root hierarchy 1 carrying the two label values
`'A'`/`'B'` and cell 1 using `'A'`, inserting the `cell_label` row that puts
cell 2 on the root's `'B'` label makes the root's in-use value set together
with the `'UNMAPPED'` sentinel exceed two members — the claim demands a
ConstraintViolation, yet the statement succeeds. -/
theorem C2_counterexample :
    rootId [⟨1, some "region", some 0⟩] = some 1
    ∧ 2 < (claimRootValuesInUse [⟨1, some "region", some 0⟩]
        [⟨some 1, 1, some "A"⟩, ⟨some 2, 1, some "B"⟩]
        (applyCL [⟨some 1, some 1, some 1, some 1⟩]
          (CLStmt.ins ⟨some 2, some 2, some 1, some 2⟩))).length
    ∧ 2 < (rootValuesAfter [⟨1, some "region", some 0⟩]
        [⟨some 1, 1, some "A"⟩, ⟨some 2, 1, some "B"⟩]).length
    ∧ cellLabelStep [1, 2] [⟨some 1, 1, some "A"⟩, ⟨some 2, 1, some "B"⟩]
        [⟨some 1, some 1, some 1, some 1⟩] (CLStmt.ins ⟨some 2, some 2, some 1, some 2⟩)
      = .ok (applyCL [⟨some 1, some 1, some 1, some 1⟩]
          (CLStmt.ins ⟨some 2, some 2, some 1, some 2⟩)) := by
  refine ⟨by decide, by decide, by decide, ?_⟩
  rfl

/-- C2 (amended): the singular-root-value rule is enforced on the `label` and
`hierarchy` tables, not on `cell_label`: an insert into `label` (or an update
matching a label row) whose NEW row targets the root hierarchy when
{existing root label values} ∪ {'UNMAPPED'} ∪ {NEW value} exceeds two members
aborts with the root-hierarchy ConstraintViolation, and an update or delete
on `hierarchy` matching at least one row is let through only if the resulting
root hierarchy's {label values} ∪ {'UNMAPPED'} has at most two members. -/
theorem C2_amended_root_guard :
    (∀ (st : LHState) (r : LabelRow),
        maximalCellLabelCond st.hs st.ls r = true →
        lhStep st (.insLabel r) = .error (.constraintViolation rootMsg))
    ∧ (∀ (st : LHState) (target : Int) (r : LabelRow),
        (st.ls.any (fun l => l.label_id == some target)) = true →
        maximalCellLabelCond st.hs st.ls r = true →
        lhStep st (.updLabel target r) = .error (.constraintViolation rootMsg))
    ∧ (∀ (st : LHState) (target : Int) (v : Option String) (lvl : Option Int) (st' : LHState),
        (st.hs.any (fun x => x.hierarchy_id == target)) = true →
        lhStep st (.updHier target v lvl) = .ok st' →
        (rootValuesAfter st'.hs st'.ls).length ≤ 2)
    ∧ (∀ (st : LHState) (target : Int) (st' : LHState),
        (st.hs.any (fun x => x.hierarchy_id == target)) = true →
        lhStep st (.delHier target) = .ok st' →
        (rootValuesAfter st'.hs st'.ls).length ≤ 2) := by
  refine ⟨?_, ?_, ?_, ?_⟩
  · intro st r hc
    simp [lhStep, hc]
  · intro st target r hany hc
    simp [lhStep, hany, hc]
  · intro st target v lvl st' hany h
    obtain ⟨_, hcond, rfl⟩ := updHier_ok hany h
    simp only [maximalCellHierarchyCond, decide_eq_false_iff_not, not_lt] at hcond
    exact hcond
  · intro st target st' hany h
    obtain ⟨_, hcond, rfl⟩ := delHier_ok hany h
    simp only [maximalCellHierarchyCond, decide_eq_false_iff_not, not_lt] at hcond
    exact hcond

/-- Witness for the amended C2: a second root label value `'B'` is rejected on
insert and on update of the root's existing label; an update or delete on the
hierarchy table that goes through leaves the root with at most two members in
{values} ∪ {'UNMAPPED'}. -/
theorem C2_amended_root_guard_witness :
    lhStep ⟨[⟨1, some "region", some 0⟩], [⟨some 1, 1, some "A"⟩]⟩
        (.insLabel ⟨some 2, 1, some "B"⟩) = .error (.constraintViolation rootMsg)
    ∧ lhStep ⟨[⟨1, some "region", some 0⟩], [⟨some 1, 1, some "A"⟩]⟩
        (.updLabel 1 ⟨some 1, 1, some "B"⟩) = .error (.constraintViolation rootMsg)
    ∧ (rootValuesAfter
        (⟨[⟨1, some "region", some 0⟩, ⟨2, some "state", some 5⟩],
          [⟨some 1, 2, some "A"⟩, ⟨some 2, 2, some "B"⟩]⟩ : LHState).hs
        (⟨[⟨1, some "region", some 0⟩, ⟨2, some "state", some 5⟩],
          [⟨some 1, 2, some "A"⟩, ⟨some 2, 2, some "B"⟩]⟩ : LHState).ls).length ≤ 2
    ∧ (rootValuesAfter
        (⟨[⟨1, some "region", some 0⟩], [⟨some 1, 1, some "A"⟩]⟩ : LHState).hs
        (⟨[⟨1, some "region", some 0⟩], [⟨some 1, 1, some "A"⟩]⟩ : LHState).ls).length ≤ 2 :=
  ⟨C2_amended_root_guard.1 ⟨[⟨1, some "region", some 0⟩], [⟨some 1, 1, some "A"⟩]⟩
      ⟨some 2, 1, some "B"⟩ (by decide),
   C2_amended_root_guard.2.1 ⟨[⟨1, some "region", some 0⟩], [⟨some 1, 1, some "A"⟩]⟩
      1 ⟨some 1, 1, some "B"⟩ (by decide) (by decide),
   C2_amended_root_guard.2.2.1
      ⟨[⟨1, some "region", some 0⟩, ⟨2, some "state", some 5⟩],
        [⟨some 1, 2, some "A"⟩, ⟨some 2, 2, some "B"⟩]⟩
      1 (some "region") (some 0)
      ⟨[⟨1, some "region", some 0⟩, ⟨2, some "state", some 5⟩],
        [⟨some 1, 2, some "A"⟩, ⟨some 2, 2, some "B"⟩]⟩
      (by decide) (by rfl),
   C2_amended_root_guard.2.2.2
      ⟨[⟨1, some "region", some 0⟩, ⟨2, some "state", some 5⟩], [⟨some 1, 1, some "A"⟩]⟩
      2 ⟨[⟨1, some "region", some 0⟩], [⟨some 1, 1, some "A"⟩]⟩
      (by decide) (by rfl)⟩

/-! ### Helper lemmas for the query-string key ordering -/

lemma charListLe_total (a : List Char) : ∀ b, charListLe a b = true ∨ charListLe b a = true := by
  induction a with
  | nil =>
    intro b
    exact Or.inl rfl
  | cons x as ih =>
    intro b
    cases b with
    | nil => exact Or.inr rfl
    | cons y bs =>
      by_cases hxy : x.toNat = y.toNat
      · simp only [charListLe, if_pos hxy, if_pos hxy.symm]
        exact ih bs
      · have hyx : ¬ y.toNat = x.toNat := fun h => hxy h.symm
        simp only [charListLe, if_neg hxy, if_neg hyx]
        rcases Nat.lt_or_ge x.toNat y.toNat with h | h
        · exact Or.inl (by simpa using h)
        · exact Or.inr (by simpa using lt_of_le_of_ne h hyx)

lemma charListLe_trans (a : List Char) : ∀ b c, charListLe a b = true → charListLe b c = true →
    charListLe a c = true := by
  induction a with
  | nil =>
    intro b c _ _
    rfl
  | cons x as ih =>
    intro b c hab hbc
    cases b with
    | nil => simp [charListLe] at hab
    | cons y bs =>
      cases c with
      | nil => simp [charListLe] at hbc
      | cons z cs =>
        by_cases hxy : x.toNat = y.toNat
        · simp only [charListLe, if_pos hxy] at hab
          by_cases hyz : y.toNat = z.toNat
          · simp only [charListLe, if_pos hyz] at hbc
            simp only [charListLe, if_pos (hxy.trans hyz)]
            exact ih bs cs hab hbc
          · simp only [charListLe, if_neg hyz] at hbc
            have hyz' : y.toNat < z.toNat := by simpa using hbc
            have hxz : x.toNat < z.toNat := by
              rw [hxy]
              exact hyz'
            simp only [charListLe, if_neg (Nat.ne_of_lt hxz)]
            simpa using hxz
        · simp only [charListLe, if_neg hxy] at hab
          have hxy' : x.toNat < y.toNat := by simpa using hab
          by_cases hyz : y.toNat = z.toNat
          · have hxz : x.toNat < z.toNat := by
              rw [← hyz]
              exact hxy'
            simp only [charListLe, if_neg (Nat.ne_of_lt hxz)]
            simpa using hxz
          · simp only [charListLe, if_neg hyz] at hbc
            have hyz' : y.toNat < z.toNat := by simpa using hbc
            have hxz : x.toNat < z.toNat := lt_trans hxy' hyz'
            simp only [charListLe, if_neg (Nat.ne_of_lt hxz)]
            simpa using hxz

lemma charListLe_antisymm (a : List Char) : ∀ b, charListLe a b = true →
    charListLe b a = true → a = b := by
  induction a with
  | nil =>
    intro b _ hba
    cases b with
    | nil => rfl
    | cons y bs => simp [charListLe] at hba
  | cons x as ih =>
    intro b hab hba
    cases b with
    | nil => simp [charListLe] at hab
    | cons y bs =>
      by_cases hxy : x.toNat = y.toNat
      · have hx : x = y := Char.eq_of_val_eq (UInt32.toNat.inj hxy)
        simp only [charListLe, if_pos hxy] at hab
        simp only [charListLe, if_pos hxy.symm] at hba
        rw [ih bs hab hba, hx]
      · have hyx : ¬ y.toNat = x.toNat := fun h => hxy h.symm
        simp only [charListLe, if_neg hxy] at hab
        simp only [charListLe, if_neg hyx] at hba
        have h1 : x.toNat < y.toNat := by simpa using hab
        have h2 : y.toNat < x.toNat := by simpa using hba
        exact absurd (lt_trans h1 h2) (lt_irrefl _)

lemma sorted_strict_of_nodup {l : List (String × String)} (hl : (l.map Prod.fst).Nodup) :
    (List.insertionSort pairKeyLe l).Pairwise (fun a b => pairKeyLe a b ∧ a.1 ≠ b.1) := by
  haveI : IsTotal (String × String) pairKeyLe := ⟨fun a b => charListLe_total _ _⟩
  haveI : IsTrans (String × String) pairKeyLe := ⟨fun a b c => charListLe_trans _ _ _⟩
  have hs : (List.insertionSort pairKeyLe l).Sorted pairKeyLe := List.sorted_insertionSort _ _
  have hperm : (List.insertionSort pairKeyLe l).Perm l := List.perm_insertionSort _ _
  have hnd : ((List.insertionSort pairKeyLe l).map Prod.fst).Nodup :=
    ((hperm.map Prod.fst).nodup_iff).mpr hl
  have hne : (List.insertionSort pairKeyLe l).Pairwise (fun a b => a.1 ≠ b.1) :=
    List.pairwise_map.mp hnd
  exact hs.and hne

lemma insertionSort_pairKeyLe_eq {l1 l2 : List (String × String)}
    (hperm : l1.Perm l2) (hnd : (l1.map Prod.fst).Nodup) :
    List.insertionSort pairKeyLe l1 = List.insertionSort pairKeyLe l2 := by
  haveI : IsAntisymm (String × String) (fun a b => pairKeyLe a b ∧ a.1 ≠ b.1) :=
    ⟨fun a b h1 h2 => by
      have h3 : a.1.toList = b.1.toList := charListLe_antisymm _ _ h1.1 h2.1
      exact absurd (String.toList_inj.mp h3) h1.2⟩
  have hnd2 : (l2.map Prod.fst).Nodup := ((hperm.map Prod.fst).nodup_iff).mp hnd
  exact List.eq_of_perm_of_sorted
    ((List.perm_insertionSort _ _).trans (hperm.trans (List.perm_insertionSort _ _).symm))
    (sorted_strict_of_nodup hnd) (sorted_strict_of_nodup hnd2)

/-! ### Helper lemma for the `partition` table -/

lemma insP_ok {rows : List PartitionRow} {r : PartitionRow} {rows' : List PartitionRow}
    (h : partitionStep rows (.insP r) = .ok rows') :
    ∃ hh, r.partition_hash = some hh ∧
      ∃ rid, rows' = (rows.filter (fun x => !(x.partition_hash == some hh)))
          ++ [{ r with partition_id := some rid }] := by
  simp only [partitionStep] at h
  split at h
  · exact absurd h (by simp)
  · rename_i hh heq
    split at h
    · exact absurd h (by simp)
    · injection h with h
      exact ⟨hh, heq, _, h.symm⟩

/-! ### Claim theorems for the connector lifecycle and remaining subsystems -/

/-- C3: opening an existing file validates the set of table names against the
required set by exact equality — any mismatch (strict superset or subset
included) raises the not-a-partition error — and the file itself is returned
unmodified in every case, so nothing is written at open time. -/
theorem C3_table_set_validity :
    ∀ (path : String) (fs : FileState) (readable : Bool) (mode : Nat),
      fs.present = true →
      (connectorInit (some path) fs readable mode).2 = fs
        ∧ ((∃ t, (connectorInit (some path) fs readable mode).1 = .ok t)
            ↔ (readable = true ∧ fs.tables.toFinset = tablesRequired.toFinset))
        ∧ (fs.tables.toFinset ≠ tablesRequired.toFinset →
            ∃ m, (connectorInit (some path) fs readable mode).1 = .error (.notAPartition m)) := by
  intro path fs readable mode hpres
  have hred : connectorInit (some path) fs readable mode
      = if isValidPartition readable fs.tables then (.ok (.existingFile path), fs)
        else (.error (.notAPartition ("File - " ++ path ++ " - is not a valid partition.")),
          fs) := by
    simp only [connectorInit, hpres, if_true]
  cases hv : isValidPartition readable fs.tables with
  | true =>
    rw [hred, if_pos hv]
    have hv' : (if readable then fs.tables.toFinset else ∅) = tablesRequired.toFinset := by
      simpa [isValidPartition] using hv
    have hru : readable = true ∧ fs.tables.toFinset = tablesRequired.toFinset := by
      cases hr : readable with
      | false =>
        rw [hr, if_neg (by simp)] at hv'
        exact absurd hv' (by decide)
      | true =>
        rw [hr, if_pos rfl] at hv'
        exact ⟨rfl, hv'⟩
    refine ⟨rfl, ?_, ?_⟩
    · exact ⟨fun _ => hru, fun _ => ⟨Target.existingFile path, rfl⟩⟩
    · intro hne
      exact absurd hru.2 hne
  | false =>
    rw [hred, if_neg (by simp [hv])]
    refine ⟨rfl, ?_, ?_⟩
    · constructor
      · rintro ⟨t, ht⟩
        cases ht
      · rintro ⟨hr, hs⟩
        rw [isValidPartition, hr, if_pos rfl, hs] at hv
        simp at hv
    · intro _
      exact ⟨_, rfl⟩

/-- Witness for C3: an existing file holding only the `cell` table (a strict
subset of the required set) is rejected with the not-a-partition error. -/
theorem C3_table_set_validity_witness :
    ∃ m, (connectorInit (some "p") ⟨true, ["cell"]⟩ true 0).1 = .error (.notAPartition m) :=
  (C3_table_set_validity "p" ⟨true, ["cell"]⟩ true 0 rfl).2.2 (by decide)

/-- C4 (counterexample): constructing a connector on a path that does not
exist with the READ_ONLY mode flag does not fail with a NotFound error —
`__init__` takes the new-file branch (`database and (not mode or
self._is_read_only)`), creates the file and bootstraps the full schema. -/
theorem C4_counterexample :
    (connectorInit (some "p") ⟨false, []⟩ true READ_ONLY).1 = .ok (.newFile "p")
    ∧ ((connectorInit (some "p") ⟨false, []⟩ true READ_ONLY).2).present = true
    ∧ ((connectorInit (some "p") ⟨false, []⟩ true READ_ONLY).2).tables = tablesRequired :=
  ⟨rfl, rfl, rfl⟩

/-- C4 (amended): with a given path that does not refer to an existing file,
READ_ONLY behaves exactly like the default mode 0: the connector creates and
bootstraps a new partition file at the path; `__init__` has no NotFound
error. -/
theorem C4_read_only_missing_creates :
    ∀ (path : String) (fs : FileState) (readable : Bool) (mode : Nat),
      fs.present = false → (mode = 0 ∨ mode &&& READ_ONLY ≠ 0) →
      connectorInit (some path) fs readable mode
        = (.ok (.newFile path), ⟨true, tablesRequired⟩) := by
  intro path fs readable mode hpres hmode
  simp only [connectorInit, hpres, Bool.false_eq_true, if_false, if_pos hmode]

/-- Witness for the amended C4: a missing file opened with READ_ONLY yields a
freshly created, fully bootstrapped partition file. -/
theorem C4_read_only_missing_creates_witness :
    connectorInit (some "q") ⟨false, []⟩ true READ_ONLY
      = (.ok (.newFile "q"), ⟨true, tablesRequired⟩) :=
  C4_read_only_missing_creates "q" ⟨false, []⟩ true READ_ONLY rfl (by decide)

/-- C6: the target-locator function (modelled from the spec, validated
against the `test_path_to_uri` vectors in `src/gpn/tests/test_partition.py`)
normalizes the path, drops none-valued parameters, percent-encodes reserved
characters such as `?` and `#`, and joins parameters `&`-separated in
ascending key order regardless of the order supplied. -/
theorem C6_path_to_uri :
    path_to_uri "foo" [] = "file:foo"
    ∧ path_to_uri "/foo" [] = "file:/foo"
    ∧ path_to_uri "foo/../bar/" [] = "file:bar"
    ∧ path_to_uri "/foo/../bar/" [] = "file:/bar"
    ∧ path_to_uri "foo" [("mode", some "ro")] = "file:foo?mode=ro"
    ∧ path_to_uri "foo" [("mode", none)] = "file:foo"
    ∧ path_to_uri "foo" [("mode", some "ro"), ("cache", some "shared")]
        = "file:foo?cache=shared&mode=ro"
    ∧ path_to_uri "/foo?/bar#" [] = "file:/foo%3F/bar%23"
    ∧ path_to_uri "foo" [("other", some "foo?bar#")] = "file:foo?other=foo%3Fbar%23"
    ∧ (∀ (p : String) (k : String) (ps : List (String × Option String)),
        path_to_uri p ((k, none) :: ps) = path_to_uri p ps)
    ∧ (∀ (p : String) (ps ps' : List (String × Option String)),
        (ps.filterMap (fun kv => kv.2.map (fun v => (kv.1, v)))).Perm
          (ps'.filterMap (fun kv => kv.2.map (fun v => (kv.1, v)))) →
        ((ps.filterMap (fun kv => kv.2.map (fun v => (kv.1, v)))).map Prod.fst).Nodup →
        path_to_uri p ps = path_to_uri p ps') := by
  refine ⟨by decide, by decide, by decide, by decide, by decide, by decide, by decide,
    by decide, by decide, ?_, ?_⟩
  · intro p k ps
    simp [path_to_uri]
  · intro p ps ps' hperm hnd
    simp only [path_to_uri]
    rw [insertionSort_pairKeyLe_eq hperm hnd]

/-- Witness for C6: two parameter maps that are permutations of each other
with distinct keys produce the identical locator. -/
theorem C6_path_to_uri_witness :
    path_to_uri "x" [("b", some "1"), ("a", some "2")]
      = path_to_uri "x" [("a", some "2"), ("b", some "1")] :=
  C6_path_to_uri.2.2.2.2.2.2.2.2.2.2 "x" [("b", some "1"), ("a", some "2")]
    [("a", some "2"), ("b", some "1")] (List.Perm.swap ("a", "2") ("b", "1") []) (by decide)

/-- C7 (counterexample): a delete on the `cell` table that matches zero rows
is rejected by the native `query_only` pragma but sails through the trigger
fallback (a `FOR EACH ROW` trigger never fires on zero rows), so the two
enforcement mechanisms are not observationally identical and not every
delete raises ReadOnlyViolation under the fallback. -/
theorem C7_counterexample :
    fallbackReadOnlyExec (.mutate .del "cell" 0) = .ok ()
    ∧ nativeReadOnlyExec (.mutate .del "cell" 0) = .error .readOnlyViolation
    ∧ "cell" ∈ partitionTables :=
  ⟨rfl, rfl, by decide⟩

/-- C7 (amended): reads succeed under both enforcement mechanisms; under the
native `query_only` pragma every mutation raises ReadOnlyViolation; under the
trigger fallback a mutation on a Partition table raises ReadOnlyViolation iff
it would affect at least one row, so the two mechanisms agree on every
mutation of a Partition table that affects at least one row (and neither ever
lets a row change). -/
theorem C7_read_only_enforcement :
    (nativeReadOnlyExec .select = .ok () ∧ fallbackReadOnlyExec .select = .ok ())
    ∧ (∀ (k : MutKind) (t : String) (n : Nat),
        nativeReadOnlyExec (.mutate k t n) = .error .readOnlyViolation)
    ∧ (∀ (k : MutKind) (t : String) (n : Nat), t ∈ partitionTables → 0 < n →
        fallbackReadOnlyExec (.mutate k t n) = .error .readOnlyViolation)
    ∧ (∀ (k : MutKind) (t : String) (n : Nat), t ∈ partitionTables → 0 < n →
        fallbackReadOnlyExec (.mutate k t n) = nativeReadOnlyExec (.mutate k t n)) := by
  have hsub : ∀ t : String, t ∈ partitionTables → t ∈ readOnlyTriggerTables := by
    intro t ht
    simp only [partitionTables, List.mem_cons, List.not_mem_nil, or_false] at ht
    rcases ht with rfl | rfl | rfl | rfl | rfl | rfl | rfl | rfl | rfl | rfl
    all_goals decide
  have hfb : ∀ (k : MutKind) (t : String) (n : Nat), t ∈ partitionTables → 0 < n →
      fallbackReadOnlyExec (.mutate k t n) = .error .readOnlyViolation := by
    intro k t n ht hn
    simp only [fallbackReadOnlyExec]
    rw [if_pos ⟨hsub t ht, hn⟩]
  refine ⟨⟨rfl, rfl⟩, fun k t n => rfl, hfb, ?_⟩
  intro k t n ht hn
  rw [hfb k t n ht hn]
  rfl

/-- Witness for the amended C7: a one-row delete on `cell` raises
ReadOnlyViolation under the fallback triggers exactly as under the native
pragma. -/
theorem C7_read_only_enforcement_witness :
    fallbackReadOnlyExec (.mutate .del "cell" 1) = .error .readOnlyViolation
    ∧ fallbackReadOnlyExec (.mutate .del "cell" 1) = nativeReadOnlyExec (.mutate .del "cell" 1) :=
  ⟨C7_read_only_enforcement.2.2.1 .del "cell" 1 (by decide) (by decide),
   C7_read_only_enforcement.2.2.2 .del "cell" 1 (by decide) (by decide)⟩

/-- C8: the shared in-memory wrapper forwards operations to the master
connection unchanged; `close()` only rolls back uncommitted work (committed
data and the open/closed status of the master are untouched, so the master
remains usable and the stored data survives); `__del__` restores the
isolation level the master had when the wrapper was created. -/
theorem C8_connection_wrapper :
    ∀ (m m' : MemMaster) (op : ConnOp),
      wrapperExec (wrapConnection m) m' op = masterExec m' op
      ∧ (wrapperClose m').closed = m'.closed
      ∧ (wrapperClose m').committed = m'.committed
      ∧ (m'.closed = false → (wrapperClose m').uncommitted = [])
      ∧ (wrapperDel (wrapConnection m) m').isolationLevel = m.isolationLevel
      ∧ (wrapperDel (wrapConnection m) m').committed = m'.committed
      ∧ (wrapperDel (wrapConnection m) m').closed = m'.closed := by
  intro m m' op
  refine ⟨rfl, ?_, ?_, ?_, ?_, ?_, ?_⟩
  · cases hc : m'.closed <;> simp [wrapperClose, hc]
  · cases hc : m'.closed <;> simp [wrapperClose, hc]
  · intro hc
    simp [wrapperClose, hc]
  · cases hc : m'.closed <;> simp [wrapperDel, wrapperClose, wrapConnection, hc]
  · cases hc : m'.closed <;> simp [wrapperDel, wrapperClose, wrapConnection, hc]
  · cases hc : m'.closed <;> simp [wrapperDel, wrapperClose, wrapConnection, hc]

/-- Witness for C8: closing the wrapper discards the pending write but keeps
the master open with its committed data, and disposal restores the saved
isolation level. -/
theorem C8_connection_wrapper_witness :
    (wrapperClose ⟨[1], [2], some "lvl", false⟩).uncommitted = []
    ∧ (wrapperDel (wrapConnection ⟨[9], [], some "orig", false⟩)
        ⟨[1], [2], none, false⟩).isolationLevel = some "orig" :=
  ⟨(C8_connection_wrapper ⟨[9], [], some "orig", false⟩ ⟨[1], [2], some "lvl", false⟩
      .readAll).2.2.2.1 rfl,
   (C8_connection_wrapper ⟨[9], [], some "orig", false⟩ ⟨[1], [2], none, false⟩
      .readAll).2.2.2.2.1⟩

/-- C9: inserting a `partition` row whose hash equals an existing row's hash
does not raise — `UNIQUE ON CONFLICT REPLACE` silently deletes the old row
and the insert proceeds — and by induction no reachable `partition` state
holds two rows with the same hash; the self-record is therefore overwritable
rather than write-once. -/
theorem C9_partition_hash_replace :
    (∀ (rows : List PartitionRow) (r : PartitionRow) (h : String),
        r.partition_hash = some h → r.partition_id = none →
        partitionStep rows (.insP r)
          = .ok ((rows.filter (fun x => !(x.partition_hash == some h)))
              ++ [{ r with partition_id := some (maxPartitionId (rows.filter (fun x => !(x.partition_hash == some h))) + 1) }])
        ∧ ∀ x ∈ rows.filter (fun x => !(x.partition_hash == some h)),
            x.partition_hash ≠ some h)
    ∧ (∀ rows : List PartitionRow, ReachableP rows →
        rows.Pairwise (fun a b => a.partition_hash ≠ b.partition_hash)) := by
  constructor
  · intro rows r h hh hid
    constructor
    · simp [partitionStep, hh, hid]
    · intro x hx
      simpa using (List.mem_filter.mp hx).2
  · intro rows hreach
    induction hreach with
    | nil => exact List.Pairwise.nil
    | step rows0 stmt rows1 _ hok ih =>
      cases stmt with
      | delP p =>
        simp only [partitionStep] at hok
        injection hok with hok
        rw [← hok]
        exact ih.filter _
      | insP r =>
        obtain ⟨hh, hhr, rid, rfl⟩ := insP_ok hok
        refine List.pairwise_append.mpr ⟨ih.filter _, List.pairwise_singleton _ _, ?_⟩
        intro a ha b hb
        rcases List.mem_singleton.mp hb with rfl
        have ha2 : a.partition_hash ≠ some hh := by
          simpa using (List.mem_filter.mp ha).2
        simpa [hhr] using ha2

/-- Witness for C9: inserting a row with the hash `'h'` over a table already
holding that hash succeeds, replacing the old row, and the reachable states
built that way keep hashes pairwise distinct. -/
theorem C9_partition_hash_replace_witness :
    (partitionStep [⟨some 1, some "h", 5⟩] (.insP ⟨none, some "h", 6⟩)
        = .ok (([(⟨some 1, some "h", 5⟩ : PartitionRow)].filter
              (fun x => !(x.partition_hash == some "h")))
            ++ [{ (⟨none, some "h", 6⟩ : PartitionRow) with partition_id := some (maxPartitionId ([(⟨some 1, some "h", 5⟩ : PartitionRow)].filter (fun x => !(x.partition_hash == some "h"))) + 1) }])
      ∧ ∀ x ∈ [(⟨some 1, some "h", 5⟩ : PartitionRow)].filter
            (fun x => !(x.partition_hash == some "h")),
          x.partition_hash ≠ some "h")
    ∧ ([(⟨some 1, some "h", 5⟩ : PartitionRow)]).Pairwise
        (fun a b => a.partition_hash ≠ b.partition_hash) :=
  ⟨C9_partition_hash_replace.1 [⟨some 1, some "h", 5⟩] ⟨none, some "h", 6⟩ "h" rfl rfl,
   C9_partition_hash_replace.2 [⟨some 1, some "h", 5⟩]
     (ReachableP.step [] (.insP ⟨some 1, some "h", 5⟩) [⟨some 1, some "h", 5⟩]
       ReachableP.nil (by rfl))⟩

end GPN
